import Mathlib

/-!
Verification of the `future` Go package (src/future/future.go): a shallow
embedding of its Result type, channel-backed Future, and the `Then`,
`AllOf`, `AnyOf` combinators, with theorems settling the specification
claims about them.

Modelling conventions.  Go contexts are modelled by the state a goroutine
observes when it polls the context: `none` means the scope is live,
`some e` means the scope is done with `ctx.Err() = e`.  A computation
`func() (T, error)` becomes `Unit → T × Option Failure`.  Channel races
(which `select` branch fires, which sender wins an unbuffered race, the
arrival order on a buffered channel) are nondeterministic in Go; each such
choice is an explicit schedule parameter of the corresponding definition,
so a theorem quantified over the parameter covers every schedule and a
theorem at a fixed parameter describes one reachable schedule.
-/

namespace FutureGo

/-- Failure kinds carried in the error slot of a Result: the two sentinel
context errors of Go (`context.Canceled`, `context.DeadlineExceeded`) and
arbitrary application errors returned by wrapped computations. -/
inductive Failure where
  | canceled
  | deadlineExceeded
  | userError (msg : String)
deriving DecidableEq, Repr

/-- State of a cancellation scope as observed at a poll: `none` = live,
`some e` = done with `ctx.Err() = e`. -/
abbrev Ctx := Option Failure

/-- Mirrors `Result[T, error]` (future.go lines 9-12): a value and an
error slot.  Go's nilable `error` is `Option Failure`. -/
structure Result (T : Type) where
  value : T
  error : Option Failure
deriving DecidableEq, Repr

/-- Mirrors `channelFuture[T]` (future.go lines 21-23): a wrapper around
the computation `fn func() (T, error)`. -/
structure ChannelFuture (T : Type) where
  fn : Unit → T × Option Failure

/-- Mirrors `New` applied to a `func() (T, error)` (future.go lines 62-65). -/
def New (fn : Unit → T × Option Failure) : ChannelFuture T :=
  ⟨fn⟩

/-- The single Result delivered into `resultCh` by the goroutine spawned in
`channelFuture.Async` (future.go lines 48-57): the goroutine polls the
derived scope once (a `select` with a `default` branch); if the scope is
done it delivers `Result{Error: ctx.Err()}` (value left at its zero value)
without running the computation, otherwise it runs `cf.fn()` and delivers
`Result{Value: value, Error: err}` verbatim.  `ctx` is the scope state the
goroutine observes at that poll. -/
def ChannelFuture.asyncDelivered [Inhabited T] (cf : ChannelFuture T) (ctx : Ctx) : Result T :=
  match ctx with
  | some e => ⟨default, some e⟩
  | none => ⟨(cf.fn ()).1, (cf.fn ()).2⟩

/-- Mirrors `channelFuture.Await` (future.go lines 25-28): it calls `Async`,
discards the cancel function, and returns the one Result received from the
handle — it has no `select` of its own, so the received Result is exactly
the one the dispatch goroutine delivered. -/
def ChannelFuture.await [Inhabited T] (cf : ChannelFuture T) (ctx : Ctx) : Result T :=
  cf.asyncDelivered ctx

/-- The three branches of the `select` in `channelFuture.AwaitWithTimeout`
(future.go lines 32-41): caller scope done, handle delivered, timer fired. -/
inductive WaitBranch where
  | ctxDone
  | handleDelivered
  | timerFired
deriving DecidableEq, Repr

/-- Mirrors `channelFuture.AwaitWithTimeout` (future.go lines 30-42).
`branch` is the `select` branch that fires (the schedule).  Returns the
Result together with whether `cancel()` was invoked: only the timer branch
calls the derived scope's cancel function.  In the `ctxDone` branch the code
returns `Result{Error: ctx.Err()}`; that branch is only ready when the
caller scope is done, i.e. when `ctx` is `some e`. -/
def ChannelFuture.awaitWithTimeout [Inhabited T] (cf : ChannelFuture T) (ctx : Ctx)
    (branch : WaitBranch) : Result T × Bool :=
  match branch with
  | .ctxDone => (⟨default, ctx⟩, false)
  | .handleDelivered => (cf.asyncDelivered ctx, false)
  | .timerFired => (⟨default, some .deadlineExceeded⟩, true)

/-- Abstract view of the `Future[T, error]` interface (future.go lines
15-19) as used by the combinators: all they ever consume is the Result the
future delivers (via `Await` or via the `Async` handle) under a given scope
state. -/
structure FutureI (T : Type) where
  await : Ctx → Result T

instance [Inhabited T] : Inhabited (FutureI T) :=
  ⟨⟨fun _ => ⟨default, none⟩⟩⟩

/-- View of a channel future through the interface. -/
def ChannelFuture.toI [Inhabited T] (cf : ChannelFuture T) : FutureI T :=
  ⟨cf.await⟩

/-- Mirrors `Then` (future.go lines 69-78): a new future whose computation
awaits `f` on the captured `ctx`; on a failure it returns the zero value of
`U` with the same error, otherwise it returns `fn` applied to the unwrapped
value, verbatim. -/
def Then [Inhabited U] (f : FutureI T) (ctx : Ctx) (fn : T → U × Option Failure) :
    ChannelFuture U :=
  New (fun _ =>
    let result := f.await ctx
    match result.error with
    | some e => (default, some e)
    | none => fn result.value)

/-- Collection loop of `AllOf` (future.go lines 106-116), counting down the
remaining `len(futures)` receives from the buffered channel `resultCh`.
`arrivals` is the sequence of index-tagged results sent into `resultCh`, in
send order (the channel is FIFO); it is a schedule parameter because it
depends on which futures finish first and on which forwarding goroutines
forward rather than drop.  A receive from an empty channel with no sender
left blocks forever: result `none`.  On the first received Result with a
non-nil error the loop calls `cancel()` and returns `(nil, err)` — the
returned Bool records that explicit early cancel (the deferred `cancel()`
additionally runs on every exit path).  Otherwise each value is stored at
its original index and after `len(futures)` successes the populated slice
is returned with a nil error. -/
def allOfLoop [Inhabited T] : Nat → List (Nat × Result T) → List T →
    Option (Result (List T) × Bool)
  | 0, _, values => some (⟨values, none⟩, false)
  | _ + 1, [], _ => none
  | k + 1, (i, r) :: rest, values =>
    match r.error with
    | some e => some (⟨[], some e⟩, true)
    | none => allOfLoop k rest (values.set i r.value)

/-- The computation inside `AllOf` (future.go lines 82-120) for `n` input
futures, under the arrival schedule `arrivals`: `values := make([]T, n)` is
`n` zero values, then the collection loop runs. -/
def runAllOf [Inhabited T] (n : Nat) (arrivals : List (Nat × Result T)) :
    Option (Result (List T) × Bool) :=
  allOfLoop n arrivals (List.replicate n default)

/-- Awaiting the future returned by `AllOf` (future.go lines 82-120): the
outer `Await` dispatches the collection computation through
`channelFuture.Async`, whose goroutine first polls the caller's scope
`octx` (the `select` with a `default` branch at future.go lines 50-56).
If the scope is already done at that poll, the collection computation never
runs — no child scope, no forwarding goroutines — and the delivered Result
carries the scope's failure with the nil slice (the zero value of `[]T`);
on an already-cancelled scope this outcome is deterministic, because a
`select` takes `default` only when no other case can proceed.  Only on a
live poll does the collection computation run, under the arrival schedule
`arrivals`; if that computation blocks (`runAllOf` yields `none`), the
await blocks with it. -/
def awaitAllOf [Inhabited T] (octx : Ctx) (n : Nat)
    (arrivals : List (Nat × Result T)) : Option (Result (List T)) :=
  match octx with
  | some e => some ⟨default, some e⟩
  | none => (runAllOf n arrivals).map (fun out => out.1)

/-- The index-tagged results the forwarding goroutines of `AllOf` (future.go
lines 95-105) stand ready to send: goroutine `i` receives future `i`'s
delivered Result under the shared child scope and forwards it tagged with
`i`.  Any arrival schedule of `AllOf` is a permutation of a subsequence of
these pairs. -/
def deliveries [Inhabited T] (fs : List (FutureI T)) (cctx : Ctx) : List (Nat × Result T) :=
  (List.range fs.length).map (fun i => (i, (fs.getD i default).await cctx))

/-- Net effect of the stores `values[r.index] = r.result.Value` performed by
a run of the collection loop over `arrivals`. -/
def applyArrivals (arrivals : List (Nat × Result T)) (vs : List T) : List T :=
  arrivals.foldl (fun acc p => acc.set p.1 p.2.value) vs

/-- The two branches of the `select` in an `AnyOf` sibling goroutine
(future.go lines 131-139): its send into the unbuffered race channel is
accepted, or the child scope is observed done first. -/
inductive RaceBranch where
  | sent
  | scopeDone
deriving DecidableEq, Repr

/-- Mirrors one `AnyOf` sibling goroutine (future.go lines 131-139): it
first receives its future's delivered Result (the send operand `<-rCh` is
evaluated on entry to the `select`), then either its send into the race
channel succeeds — upon which it invokes `cancel()` on the child scope —
or it observes the child scope done and returns without delivering.
Returns the Result it delivered (if any) and whether it invoked cancel. -/
def anyOfSibling [Inhabited T] (f : FutureI T) (cctx : Ctx) (b : RaceBranch) :
    Option (Result T) × Bool :=
  match b with
  | .sent => (some (f.await cctx), true)
  | .scopeDone => (none, false)

/-- Mirrors `AnyOf` (future.go lines 124-146) under the schedule in which
sibling `w` is the first whose send into the unbuffered race channel
succeeds: the computation receives that sibling's delivered Result `r` under
the shared child scope `cctx` and returns `(r.Value, r.Error)`. -/
def AnyOf [Inhabited T] (cctx : Ctx) (fs : List (FutureI T)) (w : Nat) : ChannelFuture T :=
  New (fun _ =>
    let result := (fs.getD w default).await cctx
    (result.value, result.error))

/-- Spec invariant on a Result: if the error slot is set, the value is the
type's zero/default. -/
def resOk [Inhabited T] (r : Result T) : Prop :=
  r.error.isSome → r.value = default

end FutureGo

namespace FutureGo

/-- C1: for every computation returning `(v, nil)` and every scope that is
not cancelled, awaiting the future built from it yields a Result whose
value is `v` and whose error is nil. -/
theorem await_success [Inhabited T] (cf : ChannelFuture T) (ctx : Ctx) (v : T)
    (hctx : ctx = none) (hfn : cf.fn () = (v, none)) :
    cf.await ctx = ⟨v, none⟩ := by
  subst hctx
  simp [ChannelFuture.await, ChannelFuture.asyncDelivered, hfn]

/-- Witness for C1 at the computation constantly returning `(42, nil)`. -/
theorem await_success_witness :
    (New (fun _ => ((42 : Nat), none))).await none = ⟨42, none⟩ :=
  await_success _ none 42 rfl rfl

/-- C2: `Await` produces exactly one of two outcomes, decided by the scope
state the dispatch goroutine observes.  If the scope is done (in
particular already cancelled when `Await` is called) the Result carries the
scope's cancellation failure with the value left at its default, never the
computation's success value; otherwise it is the computation's own Result.
In both cases `Await` returns exactly the Result delivered by the one-shot
handle, so no result is dropped, and the two outcomes are mutually
exclusive. -/
theorem await_exactly_one_outcome [Inhabited T] (cf : ChannelFuture T) (ctx : Ctx) :
    ((∃ e, ctx = some e ∧ cf.await ctx = ⟨default, some e⟩) ∨
      (ctx = none ∧ cf.await ctx = ⟨(cf.fn ()).1, (cf.fn ()).2⟩)) ∧
    cf.await ctx = cf.asyncDelivered ctx ∧
    ¬((∃ e, ctx = some e) ∧ ctx = none) := by
  refine ⟨?_, rfl, ?_⟩
  · cases ctx with
    | none => exact Or.inr ⟨rfl, rfl⟩
    | some e => exact Or.inl ⟨e, rfl, rfl⟩
  · rintro ⟨⟨e, he⟩, hn⟩
    simp [hn] at he

/-- C3: awaiting `Then(f, ctx, g)` on a live scope propagates a failure of
`f` unchanged with the default `U` value — and the outcome is the same for
every mapping function, i.e. `mapFn` is never consulted — while on a
success of `f` with value `v` it returns exactly the Result produced by
`g v`. -/
theorem then_propagates [Inhabited T] [Inhabited U] (f : FutureI T) (ctx sctx : Ctx)
    (g : T → U × Option Failure) (hs : sctx = none) :
    (∀ w e, f.await ctx = ⟨w, some e⟩ →
      (Then f ctx g).await sctx = ⟨default, some e⟩ ∧
      ∀ g' : T → U × Option Failure, (Then f ctx g').await sctx = ⟨default, some e⟩) ∧
    (∀ v, f.await ctx = ⟨v, none⟩ →
      (Then f ctx g).await sctx = ⟨(g v).1, (g v).2⟩) := by
  subst hs
  refine ⟨fun w e hf => ⟨?_, fun g' => ?_⟩, fun v hf => ?_⟩ <;>
    simp [Then, New, ChannelFuture.await, ChannelFuture.asyncDelivered, hf]

/-- Witness for C3: mapping successor over a future that succeeds with 3
yields 4. -/
theorem then_propagates_witness :
    (Then (New (fun _ => ((3 : Nat), none))).toI none (fun v => (v + 1, none))).await none
      = ⟨4, none⟩ :=
  (then_propagates (New (fun _ => ((3 : Nat), none))).toI none none
    (fun v => (v + 1, none)) rfl).2 3 rfl

/-- C6: under any schedule in which sibling `w` is the first to deliver
into the race channel, awaiting `AnyOf` returns exactly that sibling's
delivered Result — whether its error slot is set or not, so failures are
not deprioritized — and the winning sibling is the one that invokes the
child scope's cancel function right after its send is accepted. -/
theorem anyOf_first_delivery_wins [Inhabited T] (cctx : Ctx) (fs : List (FutureI T))
    (w : Nat) (hw : w < fs.length) :
    (AnyOf cctx fs w).await none = (fs.getD w default).await cctx ∧
    anyOfSibling (fs.getD w default) cctx .sent
      = (some ((fs.getD w default).await cctx), true) := by
  exact ⟨rfl, rfl⟩

/-- Witness for C6 with two futures where the winner is a failing one: the
failure wins the race. -/
theorem anyOf_first_delivery_wins_witness :
    (0 : Nat) < 2 ∧
    (AnyOf none [(New (fun _ => ((1 : Nat), some (.userError "boom")))).toI,
        (New (fun _ => ((2 : Nat), none))).toI] 0).await none
      = ⟨1, some (.userError "boom")⟩ :=
  ⟨by decide,
    (anyOf_first_delivery_wins none
      [(New (fun _ => ((1 : Nat), some (.userError "boom")))).toI,
        (New (fun _ => ((2 : Nat), none))).toI] 0 (by decide)).1⟩

/-- C7: whenever the timer branch of `AwaitWithTimeout` fires first, the
derived scope's cancel function is invoked and the returned Result carries
the deadline-exceeded failure (value left default) instead of the
computation's eventual result, and that failure kind is distinct from the
scope-cancellation failure. -/
theorem awaitWithTimeout_timer_fires [Inhabited T] (cf : ChannelFuture T) (ctx : Ctx) :
    cf.awaitWithTimeout ctx .timerFired = (⟨default, some .deadlineExceeded⟩, true) ∧
    Failure.deadlineExceeded ≠ Failure.canceled :=
  ⟨rfl, by decide⟩

/-- C10: `AllOf` over zero input futures returns (rather than blocks: the
outcome is `some`, and the collection loop performs no receive at all) a
successful Result whose value is the empty sequence and whose error is
nil. -/
theorem allOf_zero_futures [Inhabited T] (arrivals : List (Nat × Result T)) :
    runAllOf 0 arrivals = some (⟨[], none⟩, false) := rfl

end FutureGo

namespace FutureGo

/-- Unfolding of `applyArrivals` on an empty arrival sequence. -/
theorem applyArrivals_nil (vs : List T) :
    applyArrivals ([] : List (Nat × Result T)) vs = vs := rfl

/-- Unfolding of `applyArrivals` on a cons: the head store happens first. -/
theorem applyArrivals_cons (p : Nat × Result T) (rest : List (Nat × Result T)) (vs : List T) :
    applyArrivals (p :: rest) vs = applyArrivals rest (vs.set p.1 p.2.value) := rfl

/-- The stores of the collection loop never change the slice length. -/
theorem applyArrivals_length (arrivals : List (Nat × Result T)) (vs : List T) :
    (applyArrivals arrivals vs).length = vs.length := by
  induction arrivals generalizing vs with
  | nil => rfl
  | cons p rest ih => rw [applyArrivals_cons, ih, List.length_set]

/-- Reading back a freshly stored slot. -/
theorem getD_set_self (vs : List T) (i : Nat) (a d : T) (h : i < vs.length) :
    (vs.set i a).getD i d = a := by
  rw [List.getD_eq_getElem?_getD, List.getElem?_set_eq_of_lt a h, Option.getD_some]

/-- A store at one index leaves every other slot unchanged. -/
theorem getD_set_of_ne (vs : List T) (i j : Nat) (a d : T) (h : i ≠ j) :
    (vs.set i a).getD j d = vs.getD j d := by
  rw [List.getD_eq_getElem?_getD, List.getElem?_set_ne h, ← List.getD_eq_getElem?_getD]

/-- A run of the collection loop over a sequence of all-successful arrivals
neither blocks nor cancels: it performs every store and reports success. -/
theorem allOfLoop_no_error [Inhabited T] (arrivals : List (Nat × Result T)) (vs : List T)
    (h : ∀ p ∈ arrivals, p.2.error = none) :
    allOfLoop arrivals.length arrivals vs = some (⟨applyArrivals arrivals vs, none⟩, false) := by
  induction arrivals generalizing vs with
  | nil => rfl
  | cons p rest ih =>
    obtain ⟨i, r⟩ := p
    have hr : r.error = none := h (i, r) (List.mem_cons_self _ _)
    rw [List.length_cons]
    simp only [allOfLoop]
    rw [hr, applyArrivals_cons]
    exact ih _ (fun q hq => h q (List.mem_cons_of_mem _ hq))

/-- Slot contents after the collection loop's stores: an index written once
holds its arrival's value, every other index keeps its initial content. -/
theorem applyArrivals_getD [Inhabited T] (v : Nat → T) (arrivals : List (Nat × Result T)) :
    ∀ (vs : List T) (j : Nat),
    (arrivals.map Prod.fst).Nodup →
    (∀ p ∈ arrivals, p.1 < vs.length ∧ p.2.value = v p.1) →
    (applyArrivals arrivals vs).getD j default =
      if j ∈ arrivals.map Prod.fst then v j else vs.getD j default := by
  induction arrivals with
  | nil => intro vs j _ _; simp [applyArrivals_nil]
  | cons p rest ih =>
    intro vs j hnodup hp
    obtain ⟨i, r⟩ := p
    rw [applyArrivals_cons]
    have hi : i < vs.length := (hp (i, r) (List.mem_cons_self _ _)).1
    have hv : r.value = v i := (hp (i, r) (List.mem_cons_self _ _)).2
    have hnd : (rest.map Prod.fst).Nodup := (List.nodup_cons.mp (by simpa using hnodup)).2
    have hrest : ∀ q ∈ rest, q.1 < (vs.set i r.value).length ∧ q.2.value = v q.1 := by
      intro q hq
      refine ⟨?_, (hp q (List.mem_cons_of_mem _ hq)).2⟩
      rw [List.length_set]
      exact (hp q (List.mem_cons_of_mem _ hq)).1
    rw [ih (vs.set i r.value) j hnd hrest, List.map_cons]
    by_cases hj : j ∈ rest.map Prod.fst
    · rw [if_pos hj, if_pos (List.mem_cons_of_mem _ hj)]
    · rw [if_neg hj]
      by_cases hij : j = i
      · subst hij
        rw [if_pos (List.mem_cons_self _ _), getD_set_self vs j r.value default hi, hv]
      · rw [if_neg (fun hmem => (List.mem_cons.mp hmem).elim hij hj)]
        exact getD_set_of_ne vs i j r.value default (fun h => hij h.symm)

/-- Bridge from `getD` to `getElem` under an in-bounds proof. -/
theorem getD_eq_get (l : List T) (j : Nat) (d : T) (h : j < l.length) :
    l.getD j d = l.get ⟨j, h⟩ := by
  rw [List.getD_eq_getElem?_getD, List.getElem?_eq_getElem h, Option.getD_some]
  rfl

/-- C4: if every input future succeeds, with future `i` delivering value
`v i` under the shared child scope, then for every arrival order — any
permutation of the index-tagged deliveries — the `AllOf` computation
returns, without blocking and without cancelling early, the successful
Result whose value lists the `v i` in original input-index order. -/
theorem allOf_all_success [Inhabited T] (fs : List (FutureI T)) (cctx : Ctx) (v : Nat → T)
    (arrivals : List (Nat × Result T))
    (hsucc : ∀ i, i < fs.length → (fs.getD i default).await cctx = ⟨v i, none⟩)
    (hperm : arrivals.Perm (deliveries fs cctx)) :
    runAllOf fs.length arrivals
      = some (⟨(List.range fs.length).map v, none⟩, false) := by
  have hdel : deliveries fs cctx
      = (List.range fs.length).map (fun i => ((i, ⟨v i, none⟩) : Nat × Result T)) := by
    unfold deliveries
    exact List.map_congr_left (fun i hi => by rw [hsucc i (List.mem_range.mp hi)])
  rw [hdel] at hperm
  have hlen : arrivals.length = fs.length := by
    rw [hperm.length_eq, List.length_map, List.length_range]
  have hmem : ∀ p ∈ arrivals, p.1 < fs.length ∧ p.2 = ⟨v p.1, none⟩ := by
    intro p hp
    have hmem2 := hperm.subset hp
    simp only [List.mem_map, List.mem_range] at hmem2
    obtain ⟨i, hi, rfl⟩ := hmem2
    exact ⟨hi, rfl⟩
  have herr : ∀ p ∈ arrivals, p.2.error = none := fun p hp => by rw [(hmem p hp).2]
  have hfst : (arrivals.map Prod.fst).Perm (List.range fs.length) := by
    have hm := hperm.map Prod.fst
    rw [List.map_map,
      show (Prod.fst ∘ fun i => ((i, (⟨v i, none⟩ : Result T)) : Nat × Result T)) = id from rfl,
      List.map_id] at hm
    exact hm
  have hnodup : (arrivals.map Prod.fst).Nodup :=
    hfst.nodup_iff.mpr (List.nodup_range fs.length)
  unfold runAllOf
  rw [← hlen, allOfLoop_no_error arrivals _ herr]
  have hfinal : applyArrivals arrivals (List.replicate arrivals.length default)
      = (List.range arrivals.length).map v := by
    have hlenf : (applyArrivals arrivals (List.replicate arrivals.length default)).length
        = ((List.range arrivals.length).map v).length := by
      rw [applyArrivals_length, List.length_replicate, List.length_map, List.length_range]
    refine List.ext_get hlenf ?_
    intro j h1 h2
    have hj : j < arrivals.length := by
      rwa [applyArrivals_length, List.length_replicate] at h1
    have hjm : j ∈ arrivals.map Prod.fst := by
      rw [hlen] at hj
      exact hfst.mem_iff.mpr (List.mem_range.mpr hj)
    have hbound : ∀ p ∈ arrivals,
        p.1 < (List.replicate arrivals.length (default : T)).length ∧ p.2.value = v p.1 := by
      intro p hp
      rw [List.length_replicate, hlen]
      exact ⟨(hmem p hp).1, by rw [(hmem p hp).2]⟩
    have hg := applyArrivals_getD v arrivals (List.replicate arrivals.length default) j
      hnodup hbound
    rw [if_pos hjm] at hg
    rw [← getD_eq_get _ j default h1, ← getD_eq_get _ j default h2, hg,
      List.getD_eq_getElem?_getD, List.getElem?_map, List.getElem?_range hj]
    rfl
  rw [hfinal]

/-- Witness for C4: three futures delivering 1, 2, 3 collected in fully
reversed completion order still yield the value sequence [1, 2, 3]. -/
theorem allOf_all_success_witness :
    runAllOf (T := Nat) 3 [(2, ⟨3, none⟩), (1, ⟨2, none⟩), (0, ⟨1, none⟩)]
      = some (⟨[1, 2, 3], none⟩, false) :=
  allOf_all_success
    [(New (fun _ => ((1 : Nat), none))).toI, (New (fun _ => ((2 : Nat), none))).toI,
      (New (fun _ => ((3 : Nat), none))).toI]
    none (fun i => i + 1)
    [(2, ⟨3, none⟩), (1, ⟨2, none⟩), (0, ⟨1, none⟩)]
    (by
      intro i hi
      have h3 : i < 3 := by simpa using hi
      interval_cases i <;> rfl)
    (by decide)

/-- The collection loop, run over a prefix of successful arrivals followed
by the first failing arrival, reaches the failure (provided the loop still
has receives left), calls the child scope's cancel function, and returns
the failure with a nil output slice — everything after the failing arrival
is discarded. -/
theorem allOfLoop_first_failure [Inhabited T] (pre post : List (Nat × Result T))
    (i : Nat) (w : T) (e : Failure) :
    ∀ (n : Nat) (vs : List T), (∀ p ∈ pre, p.2.error = none) → pre.length < n →
    allOfLoop n (pre ++ (i, ⟨w, some e⟩) :: post) vs = some (⟨[], some e⟩, true) := by
  induction pre with
  | nil =>
    intro n vs _ hlen
    obtain ⟨k, rfl⟩ : ∃ k, n = k + 1 := ⟨n - 1, by omega⟩
    rfl
  | cons q rest ih =>
    intro n vs hpre hlen
    obtain ⟨k, rfl⟩ : ∃ k, n = k + 1 := ⟨n - 1, by omega⟩
    obtain ⟨qi, qr⟩ := q
    have hq : qr.error = none := hpre (qi, qr) (List.mem_cons_self _ _)
    rw [List.cons_append]
    simp only [allOfLoop]
    rw [hq]
    exact ih k _ (fun p hp => hpre p (List.mem_cons_of_mem _ hp))
      (by simpa using Nat.lt_of_succ_lt_succ hlen)

/-- C5: whatever arrivals follow it, when the first failing Result is
received (all arrivals before it successful, and the loop not yet
finished), the `AllOf` computation invokes the child scope's cancel
function — propagating cancellation to the still-running siblings — and
immediately returns that failure; its output slice is nil, so the value
sequence is populated only on the all-success path. -/
theorem allOf_first_failure [Inhabited T] (n : Nat) (pre post : List (Nat × Result T))
    (i : Nat) (w : T) (e : Failure)
    (hpre : ∀ p ∈ pre, p.2.error = none) (hlen : pre.length < n) :
    runAllOf n (pre ++ (i, ⟨w, some e⟩) :: post) = some (⟨[], some e⟩, true) :=
  allOfLoop_first_failure pre post i w e n _ hpre hlen

/-- Witness for C5: of three futures the second arrival fails; the failure
is returned with early cancel, the already-collected and the pending
results are discarded. -/
theorem allOf_first_failure_witness :
    runAllOf (T := Nat) 3 [(0, ⟨5, none⟩), (2, ⟨0, some (.userError "boom")⟩), (1, ⟨7, none⟩)]
      = some (⟨[], some (.userError "boom")⟩, true) :=
  allOf_first_failure 3 [(0, ⟨5, none⟩)] [(1, ⟨7, none⟩)] 2 0 (.userError "boom")
    (by decide) (by decide)

/-- C8 counterexample: two futures whose computations outlast the caller,
scope cancelled mid-collection.  The outer dispatch poll saw a live scope
(`none`), so the collection computation runs; the cancellation lands after
both forwarding goroutines started their `select` but before either
future's result channel became ready, so each `select` has only its
`ctx.Done()` case ready and deterministically returns without forwarding —
the arrival sequence is empty.  The collection loop's receive
`r := <-resultCh` (future.go line 108) has no cancellation case, so it
blocks forever: awaiting `AllOf` yields no Result at all, in particular
not the promised Result carrying the cancellation failure. -/
theorem allOf_mid_collection_cancel_blocks :
    awaitAllOf (T := Nat) none 2 [] = none ∧
    awaitAllOf (T := Nat) none 2 [] ≠ some ⟨[], some .canceled⟩ :=
  ⟨rfl, by decide⟩

/-- C8 amended: cancellation of the caller's scope before all results are
collected surfaces as follows.  If the scope is already done when the
`AllOf` future is awaited, the dispatch poll deterministically returns a
Result carrying the scope's failure (nil slice) without running the
collection at all.  If the scope is cancelled mid-collection, the
collection loop watches only the result channel, never the scope: whenever
at least one forwarding goroutine forwards its future's cancellation-
carrying Result (here: the first failing arrival, with successes before
it and the loop still short of `n`), `AllOf` returns that cancellation
failure; but under the schedule with no arrival at all it blocks forever
instead of returning. -/
theorem allOf_caller_cancellation [Inhabited T] (n : Nat) (e : Failure)
    (arrivals pre post : List (Nat × Result T)) (i : Nat) (w : T)
    (hpre : ∀ p ∈ pre, p.2.error = none) (hlen : pre.length < n) (hn : 0 < n) :
    awaitAllOf (some e) n arrivals = some ⟨[], some e⟩ ∧
    awaitAllOf none n (pre ++ (i, ⟨w, some e⟩) :: post) = some ⟨[], some e⟩ ∧
    awaitAllOf (T := T) none n [] = none := by
  refine ⟨rfl, ?_, ?_⟩
  · show (runAllOf n (pre ++ (i, ⟨w, some e⟩) :: post)).map (fun out => out.1)
      = some ⟨[], some e⟩
    rw [show runAllOf n (pre ++ (i, ⟨w, some e⟩) :: post) = some (⟨[], some e⟩, true) from
      allOfLoop_first_failure pre post i w e n _ hpre hlen]
    rfl
  · obtain ⟨k, rfl⟩ : ∃ k, n = k + 1 := ⟨n - 1, by omega⟩
    rfl

/-- Witness for the amended C8: two futures, scope failure `canceled`.
Already-cancelled dispatch returns the cancellation failure; a forwarded
cancellation-carrying arrival returns it too; the empty arrival schedule
blocks. -/
theorem allOf_caller_cancellation_witness :
    awaitAllOf (T := Nat) (some .canceled) 2 [(0, ⟨5, none⟩)] = some ⟨[], some .canceled⟩ ∧
    awaitAllOf (T := Nat) none 2 [(0, ⟨0, some .canceled⟩), (1, ⟨0, some .canceled⟩)]
      = some ⟨[], some .canceled⟩ ∧
    awaitAllOf (T := Nat) none 2 [] = none :=
  allOf_caller_cancellation 2 .canceled [(0, ⟨5, none⟩)] [] [(1, ⟨0, some .canceled⟩)] 0 0
    (by decide) (by decide) (by decide)

end FutureGo

namespace FutureGo

/-- C9 counterexample: a wrapped computation returning both the non-zero
value 42 and a non-nil error yields, through `Await` on a live scope, a
Result whose error is set while its value is 42 — not the type's default —
because the dispatch goroutine forwards `Result{Value: value, Error: err}`
verbatim without zeroing the value.  The claimed invariant fails. -/
theorem result_invariant_counterexample :
    (New (fun _ => ((42 : Nat), some (.userError "boom")))).await none
      = ⟨42, some (.userError "boom")⟩ ∧
    ¬ resOk ((New (fun _ => ((42 : Nat), some (.userError "boom")))).await none) := by
  refine ⟨rfl, fun h => ?_⟩
  have h42 : (42 : Nat) = 0 := h rfl
  exact absurd h42 (by decide)

/-- Every Result the collection loop of `AllOf` returns satisfies the
invariant: its failure exit carries the nil slice, its success exit a nil
error. -/
theorem allOfLoop_resOk [Inhabited T] :
    ∀ (n : Nat) (arrivals : List (Nat × Result T)) (vs : List T)
      (out : Result (List T) × Bool),
    allOfLoop n arrivals vs = some out → resOk out.1 := by
  intro n
  induction n with
  | zero =>
    intro arrivals vs out h
    have hout : (⟨vs, none⟩, false) = out := by
      injection h
    rw [← hout]
    intro habs
    simp at habs
  | succ k ih =>
    intro arrivals vs out h
    match arrivals with
    | [] => exact absurd h (by simp [allOfLoop])
    | (i, r) :: rest =>
      rcases hre : r.error with _ | e
      · simp only [allOfLoop, hre] at h
        exact ih rest _ out h
      · simp only [allOfLoop, hre] at h
        have hout : (⟨[], some e⟩, true) = out := by
          injection h
        rw [← hout]
        intro _
        rfl

/-- C9 amended: the failure Results the library itself constructs — the
cancellation Result a dispatch goroutine delivers, the cancellation and
deadline branches of `AwaitWithTimeout`, `Then`'s short-circuit, and both
exits of `AllOf`'s collection loop — always satisfy the invariant (error
set implies default value); and provided the wrapped computations and the
mapping function themselves return the default value alongside any non-nil
error, the Results of `Await`, `AwaitWithTimeout`, `Then` and `AnyOf`
satisfy it as well.  Without that proviso the invariant fails, as the
counterexample shows, since a computation's value is forwarded verbatim. -/
theorem result_invariant_amended [Inhabited T] [Inhabited U]
    (cf : ChannelFuture T) (ctx sctx cctx : Ctx) (b : WaitBranch)
    (f : FutureI T) (g : T → U × Option Failure)
    (fs : List (FutureI T)) (w : Nat)
    (n : Nat) (arrivals : List (Nat × Result T)) (out : Result (List T) × Bool)
    (hfn : resOk (⟨(cf.fn ()).1, (cf.fn ()).2⟩ : Result T))
    (hg : ∀ x, resOk (⟨(g x).1, (g x).2⟩ : Result U))
    (hfs : ∀ q ∈ fs, ∀ c : Ctx, resOk (q.await c))
    (hw : w < fs.length)
    (hrun : runAllOf n arrivals = some out) :
    resOk (cf.await ctx) ∧
    resOk (cf.awaitWithTimeout ctx b).1 ∧
    resOk ((Then f ctx g).await sctx) ∧
    resOk out.1 ∧
    resOk ((AnyOf cctx fs w).await sctx) := by
  refine ⟨?_, ?_, ?_, ?_, ?_⟩
  · cases ctx with
    | none => exact hfn
    | some e => intro _; rfl
  · cases b with
    | ctxDone => intro _; rfl
    | handleDelivered =>
      cases ctx with
      | none => exact hfn
      | some e => intro _; rfl
    | timerFired => intro _; rfl
  · cases sctx with
    | some e => intro _; rfl
    | none =>
      rcases hfe : (f.await ctx).error with _ | e
      · have heq : (Then f ctx g).await none
            = ⟨(g (f.await ctx).value).1, (g (f.await ctx).value).2⟩ := by
          simp [Then, New, ChannelFuture.await, ChannelFuture.asyncDelivered, hfe]
        rw [heq]
        exact hg (f.await ctx).value
      · have heq : (Then f ctx g).await none = ⟨default, some e⟩ := by
          simp [Then, New, ChannelFuture.await, ChannelFuture.asyncDelivered, hfe]
        rw [heq]
        intro _
        rfl
  · unfold runAllOf at hrun
    exact allOfLoop_resOk n arrivals _ out hrun
  · cases sctx with
    | some e => intro _; rfl
    | none =>
      have heq : (AnyOf cctx fs w).await none = (fs.getD w default).await cctx := rfl
      rw [heq, getD_eq_get fs w default hw]
      exact hfs _ (fs.get_mem _ _) cctx

/-- Witness for the amended C9, with a computation that does return the
default value 0 alongside its error, an identity-like mapping function, a
singleton race, and the empty `AllOf` run. -/
theorem result_invariant_amended_witness :
    resOk ((New (fun _ => ((0 : Nat), some (.userError "x")))).await none) ∧
    resOk (((New (fun _ => ((0 : Nat), some (.userError "x")))).awaitWithTimeout none
      .handleDelivered).1) ∧
    resOk ((Then ((New (fun _ => ((0 : Nat), none))).toI) none
      (fun _ => ((0 : Nat), none))).await none) ∧
    resOk (((⟨[], none⟩ : Result (List Nat)), false).1) ∧
    resOk ((AnyOf none [((New (fun _ => ((0 : Nat), none))).toI)] 0).await none) :=
  result_invariant_amended
    (New (fun _ => ((0 : Nat), some (.userError "x")))) none none none .handleDelivered
    ((New (fun _ => ((0 : Nat), none))).toI) (fun _ => ((0 : Nat), none))
    [((New (fun _ => ((0 : Nat), none))).toI)] 0 0 [] (⟨[], none⟩, false)
    (fun _ => rfl)
    (fun _ _ => rfl)
    (by
      intro q hq c
      rcases List.mem_singleton.mp hq with rfl
      cases c <;> intro h <;> rfl)
    (by decide)
    rfl

end FutureGo
